import Mathlib

/-!
Shallow embedding of the RBAC permission-coverage validator from
`pkg/controller/deployment/rbac_validator.go` of the cert-manager-operator
repository, together with theorems settling the specification claims.

Go slices of strings become `List String`; a nil slice and an empty slice
behave identically under `len` and `range`, so both are modelled by `[]`.
Go's `strings.Join` is embedded as `stringsJoin` with its standard-library
semantics (elements joined with the separator between them, empty string
for an empty list).
-/

namespace CertManagerRBAC

/-- `rbacv1.PolicyRule` restricted to the fields the validator reads. -/
structure PolicyRule where
  apiGroups : List String
  resources : List String
  verbs : List String
  resourceNames : List String
deriving DecidableEq, Repr

/-- `rbacv1.Role` restricted to the fields the validator reads: its
metadata name and its rule list. -/
structure Role where
  name : String
  rules : List PolicyRule
deriving DecidableEq, Repr

/-- The `RBACValidator` struct; only `operatorRules` is ever read. -/
structure RBACValidator where
  operatorRules : List PolicyRule
deriving DecidableEq, Repr

/-- `NewRBACValidator`: stores the granted rules; it cannot fail. -/
def NewRBACValidator (operatorRules : List PolicyRule) : RBACValidator :=
  ⟨operatorRules⟩

/-- Go `strings.Join elems sep`, specialised to a leading separator
argument: `""` on the empty list, the single element on a singleton, and
elements interleaved with `sep` otherwise. -/
def stringsJoin (sep : String) : List String → String
  | [] => ""
  | [a] => a
  | a :: b :: rest => a ++ sep ++ stringsJoin sep (b :: rest)

/-- `sliceContains available required`: every item of `required` is found
in `available`, where an available item matches if it is the literal `*`
or is equal to the item. -/
def sliceContains (available required : List String) : Bool :=
  required.all fun req => available.any fun avail => avail == "*" || avail == req

/-- `ruleCovers opRule reqRule`: the chain of early-return checks of the Go
function, written as one conjunction. The resource-name check runs only
when both sides carry a non-empty `resourceNames`. -/
def ruleCovers (opRule reqRule : PolicyRule) : Bool :=
  sliceContains opRule.apiGroups reqRule.apiGroups &&
  sliceContains opRule.resources reqRule.resources &&
  sliceContains opRule.verbs reqRule.verbs &&
  (if reqRule.resourceNames.length > 0 ∧ opRule.resourceNames.length > 0 then
    sliceContains opRule.resourceNames reqRule.resourceNames
  else true)

/-- `operatorCanGrant`: existential scan of the granted rules. -/
def operatorCanGrant (v : RBACValidator) (rule : PolicyRule) : Bool :=
  v.operatorRules.any fun opRule => ruleCovers opRule rule

/-- Rendering of a `[]string` by Go's `fmt` `%v` verb: elements joined by
single spaces inside square brackets. -/
def formatStringSlice (xs : List String) : String :=
  "[" ++ stringsJoin " " xs ++ "]"

/-- `formatPolicyRule`: the error-message rendering of a rule. -/
def formatPolicyRule (rule : PolicyRule) : String :=
  "APIGroups:" ++ formatStringSlice rule.apiGroups ++
  " Resources:" ++ formatStringSlice rule.resources ++
  " Verbs:" ++ formatStringSlice rule.verbs

/-- The error value built by `ValidateRoleCreation` for a role name and the
first uncovered rule. -/
def roleCreationError (name : String) (rule : PolicyRule) : String :=
  "operator cannot create role " ++ name ++ ": missing permissions for " ++
  formatPolicyRule rule

/-- The loop body of `ValidateRoleCreation`: scan the rules in order and
return the error for the first rule the operator cannot grant. -/
def validateRulesLoop (v : RBACValidator) (name : String) : List PolicyRule → Option String
  | [] => none
  | rule :: rest =>
    if operatorCanGrant v rule then validateRulesLoop v name rest
    else some (roleCreationError name rule)

/-- `ValidateRoleCreation`: `none` models the Go `nil` error. -/
def ValidateRoleCreation (v : RBACValidator) (role : Role) : Option String :=
  validateRulesLoop v role.name role.rules

/-- `ValidateAllRoles`: appends, in input order, the error of every role
that fails `ValidateRoleCreation`. -/
def ValidateAllRoles (v : RBACValidator) : List Role → List String
  | [] => []
  | role :: rest =>
    match ValidateRoleCreation v role with
    | some e => e :: ValidateAllRoles v rest
    | none => ValidateAllRoles v rest

/-- The loop body of `GetMissingPermissions`: collect, in order, the rules
the operator cannot grant. -/
def getMissingLoop (v : RBACValidator) : List PolicyRule → List PolicyRule
  | [] => []
  | rule :: rest =>
    if operatorCanGrant v rule then getMissingLoop v rest
    else rule :: getMissingLoop v rest

/-- `GetMissingPermissions`. -/
def GetMissingPermissions (v : RBACValidator) (role : Role) : List PolicyRule :=
  getMissingLoop v role.rules

/-- The per-rule rendering inside `SuggestKubebuilderAnnotation`. -/
def suggestForRule (rule : PolicyRule) : String :=
  let apiGroupsJoined := stringsJoin ";" rule.apiGroups
  let apiGroups := if apiGroupsJoined == "" then "\"\"" else apiGroupsJoined
  let resources := stringsJoin ";" rule.resources
  let verbs := stringsJoin ";" rule.verbs
  let suggestion := "//+kubebuilder:rbac:groups=" ++ apiGroups ++
    ",resources=" ++ resources ++ ",verbs=" ++ verbs
  if rule.resourceNames.length > 0 then
    suggestion ++ ",resourceNames=" ++ stringsJoin ";" rule.resourceNames
  else
    suggestion

/-- `SuggestKubebuilderAnnotation`: one rendered string per input rule. -/
def SuggestKubebuilderAnnotation (missingRules : List PolicyRule) : List String :=
  missingRules.map suggestForRule

/-! Spec-side definitions, written from the specification's words, for the
refinement claims. -/

/-- Spec wording of per-attribute coverage: every element of the required
set is an element of the available set, or the available set contains the
literal `*`. -/
def specSliceCovers (avail req : List String) : Prop :=
  ∀ r ∈ req, r ∈ avail ∨ "*" ∈ avail

/-- Spec wording of single-rule coverage: the three attribute conditions,
plus the resource-name condition which only binds when both sides carry a
non-empty `resourceNames`. -/
def specRuleCovers (g r : PolicyRule) : Prop :=
  specSliceCovers g.apiGroups r.apiGroups ∧
  specSliceCovers g.resources r.resources ∧
  specSliceCovers g.verbs r.verbs ∧
  (r.resourceNames ≠ [] → g.resourceNames ≠ [] →
    specSliceCovers g.resourceNames r.resourceNames)

/-- Spec wording of the rendered groups field: the two-character
empty-quote token exactly when joining the apiGroups yields the empty
string, which happens for the empty set and for the singleton core group. -/
def specGroupsField (gs : List String) : String :=
  if gs = [] ∨ gs = [""] then "\"\"" else stringsJoin ";" gs

/-- Spec wording of the suggestion rendering for one rule: the groups,
resources and verbs fields joined by semicolons in original order, and a
resourceNames clause appended exactly when `resourceNames` is non-empty. -/
def specRenderSuggestion (rule : PolicyRule) : String :=
  let base := "//+kubebuilder:rbac:groups=" ++ specGroupsField rule.apiGroups ++
    ",resources=" ++ stringsJoin ";" rule.resources ++
    ",verbs=" ++ stringsJoin ";" rule.verbs
  if rule.resourceNames ≠ [] then
    base ++ ",resourceNames=" ++ stringsJoin ";" rule.resourceNames
  else
    base

/-! Helper lemmas shared by the claim theorems. -/

theorem sliceContains_iff (a r : List String) :
    sliceContains a r = true ↔ specSliceCovers a r := by
  simp only [sliceContains, specSliceCovers, List.all_eq_true, List.any_eq_true,
    Bool.or_eq_true, beq_iff_eq]
  constructor
  · intro h x hx
    rcases h x hx with ⟨y, hy, h1 | h2⟩
    · exact Or.inr (h1 ▸ hy)
    · exact Or.inl (h2 ▸ hy)
  · intro h x hx
    rcases h x hx with hm | hw
    · exact ⟨x, hm, Or.inr rfl⟩
    · exact ⟨"*", hw, Or.inl rfl⟩

theorem sliceContains_false_iff (a r : List String) :
    sliceContains a r = false ↔ ¬ specSliceCovers a r := by
  rw [← sliceContains_iff]
  cases h : sliceContains a r <;> simp

theorem ruleCovers_iff (g r : PolicyRule) :
    ruleCovers g r = true ↔ specRuleCovers g r := by
  unfold ruleCovers specRuleCovers
  simp only [Bool.and_eq_true, sliceContains_iff, and_assoc]
  refine and_congr_right fun _ => and_congr_right fun _ => and_congr_right fun _ => ?_
  by_cases h : r.resourceNames.length > 0 ∧ g.resourceNames.length > 0
  · rw [if_pos h, sliceContains_iff]
    obtain ⟨hr, hg⟩ := h
    constructor
    · exact fun hc _ _ => hc
    · intro hc
      exact hc (List.length_pos.mp hr) (List.length_pos.mp hg)
  · rw [if_neg h]
    constructor
    · intro _ hr hg
      exact absurd ⟨List.length_pos.mpr hr, List.length_pos.mpr hg⟩ h
    · intro _
      rfl

theorem sliceContains_nil_req (a : List String) : sliceContains a [] = true := rfl

theorem sliceContains_wildcard (r : List String) : sliceContains ["*"] r = true := by
  rw [sliceContains_iff]
  intro x _
  exact Or.inr (List.mem_singleton.mpr rfl)

theorem ruleCovers_of_wildcard (r : PolicyRule) :
    ruleCovers ⟨["*"], ["*"], ["*"], []⟩ r = true := by
  unfold ruleCovers
  simp only [sliceContains_wildcard, Bool.true_and]
  rw [if_neg]
  rintro ⟨-, hg⟩
  simp at hg

theorem validateRulesLoop_eq_find (v : RBACValidator) (name : String)
    (rules : List PolicyRule) :
    validateRulesLoop v name rules =
      (rules.find? fun r => ! operatorCanGrant v r).map fun r => roleCreationError name r := by
  induction rules with
  | nil => rfl
  | cons r rest ih =>
    cases hg : operatorCanGrant v r with
    | false =>
      rw [validateRulesLoop, if_neg (by simp [hg])]
      rw [List.find?_cons_of_pos _ (by simp [hg])]
      rfl
    | true =>
      rw [validateRulesLoop, if_pos hg]
      rw [List.find?_cons_of_neg _ (by simp [hg]), ih]

theorem validateRoleCreation_none_iff (v : RBACValidator) (role : Role) :
    ValidateRoleCreation v role = none ↔
      ∀ r ∈ role.rules, operatorCanGrant v r = true := by
  rw [ValidateRoleCreation, validateRulesLoop_eq_find]
  simp [List.find?_eq_none]

theorem validateAllRoles_eq_filterMap (v : RBACValidator) (roles : List Role) :
    ValidateAllRoles v roles = roles.filterMap fun role => ValidateRoleCreation v role := by
  induction roles with
  | nil => rfl
  | cons role rest ih =>
    rw [ValidateAllRoles]
    cases h : ValidateRoleCreation v role with
    | none => simp only [List.filterMap_cons, h, ih]
    | some e => simp only [List.filterMap_cons, h, ih]

theorem getMissingLoop_eq_filter (v : RBACValidator) (rules : List PolicyRule) :
    getMissingLoop v rules = rules.filter fun r => ! operatorCanGrant v r := by
  induction rules with
  | nil => rfl
  | cons r rest ih =>
    cases hg : operatorCanGrant v r with
    | false =>
      rw [getMissingLoop, if_neg (by simp [hg]), ih, List.filter_cons_of_pos (by simp [hg])]
    | true =>
      rw [getMissingLoop, if_pos hg, ih, List.filter_cons_of_neg (by simp [hg])]

theorem stringsJoin_cons_cons (sep a b : String) (t : List String) :
    stringsJoin sep (a :: b :: t) = a ++ sep ++ stringsJoin sep (b :: t) := rfl

theorem stringsJoin_semicolon_eq_empty_iff (gs : List String) :
    stringsJoin ";" gs = "" ↔ gs = [] ∨ gs = [""] := by
  match gs with
  | [] => simp [stringsJoin]
  | [a] =>
    simp only [stringsJoin]
    constructor
    · intro h
      exact Or.inr (by rw [h])
    · rintro (h | h)
      · simp at h
      · simp at h
        rw [h]
  | a :: b :: t =>
    constructor
    · intro h
      have hlen : (stringsJoin ";" (a :: b :: t)).length = 0 := by rw [h]; rfl
      rw [stringsJoin_cons_cons, String.length_append, String.length_append] at hlen
      have : (";" : String).length = 1 := rfl
      omega
    · rintro (h | h) <;> simp at h

theorem groupsField_eq (gs : List String) :
    (if stringsJoin ";" gs == "" then "\"\"" else stringsJoin ";" gs) =
      specGroupsField gs := by
  unfold specGroupsField
  by_cases h : stringsJoin ";" gs = ""
  · rw [if_pos (by simp [h]), if_pos ((stringsJoin_semicolon_eq_empty_iff gs).mp h)]
  · rw [if_neg (by simp [h]), if_neg fun hc => h ((stringsJoin_semicolon_eq_empty_iff gs).mpr hc)]

theorem suggestForRule_eq_spec (rule : PolicyRule) :
    suggestForRule rule = specRenderSuggestion rule := by
  simp only [suggestForRule, specRenderSuggestion]
  rw [groupsField_eq]
  by_cases h : rule.resourceNames = []
  · rw [if_neg (by simp [h]), if_neg (by simp [h])]
  · rw [if_pos (List.length_pos.mpr h), if_pos h]

theorem ruleCovers_of_trivial (g r : PolicyRule) (h1 : r.apiGroups = [])
    (h2 : r.resources = []) (h3 : r.verbs = []) (h4 : r.resourceNames = []) :
    ruleCovers g r = true := by
  unfold ruleCovers
  rw [h1, h2, h3, sliceContains_nil_req, sliceContains_nil_req, sliceContains_nil_req]
  rw [if_neg (by rw [h4]; simp)]
  rfl

/-! The claim theorems. -/

/-- Claim C1: for every granted rule list and requested rule, the
single-rule coverage test `operatorCanGrant` returns true iff some granted
rule satisfies the four spec conditions (per-attribute containment or the
literal wildcard for apiGroups, resources and verbs, and the resource-name
condition binding only when both sides carry non-empty resourceNames). -/
theorem operatorCanGrant_iff_exists_specRuleCovers (v : RBACValidator) (r : PolicyRule) :
    operatorCanGrant v r = true ↔ ∃ g ∈ v.operatorRules, specRuleCovers g r := by
  unfold operatorCanGrant
  rw [List.any_eq_true]
  constructor
  · rintro ⟨g, hg, hc⟩
    exact ⟨g, hg, (ruleCovers_iff g r).mp hc⟩
  · rintro ⟨g, hg, hc⟩
    exact ⟨g, hg, (ruleCovers_iff g r).mpr hc⟩

/-- Claim C2, evaluated on the code: a granted rule with empty
resourceNames covers an otherwise equal requested rule with non-empty
resourceNames (first conjunct, as the claim states); but in the reverse
direction the code also returns true — a granted rule restricted to
resourceNames `foo` is treated as covering the otherwise equal requested
rule with empty resourceNames (second conjunct), contradicting the claim
that this direction must NOT be treated as covering. -/
theorem ruleCovers_resourceNames_reverse_direction_eval :
    ruleCovers ⟨[""], ["configmaps"], ["get"], []⟩
      ⟨[""], ["configmaps"], ["get"], ["foo"]⟩ = true ∧
    ruleCovers ⟨[""], ["configmaps"], ["get"], ["foo"]⟩
      ⟨[""], ["configmaps"], ["get"], []⟩ = true := by
  decide

/-- Claim C3: resources are matched as exact opaque strings, with no
hierarchical sub-resource expansion: if a requested rule's resources
contain a compound token absent from the granted rule's resources, which
also lack the literal wildcard, the granted rule does not cover the
requested rule, regardless of its verbs. -/
theorem no_hierarchical_subresource_inference (g r : PolicyRule) (base compound : String)
    (_hb : base ∈ g.resources) (hc : compound ∈ r.resources)
    (hnc : compound ∉ g.resources) (hw : "*" ∉ g.resources) :
    ruleCovers g r = false := by
  have hsc : sliceContains g.resources r.resources = false := by
    rw [sliceContains_false_iff]
    intro hcov
    rcases hcov compound hc with h | h
    · exact hnc h
    · exact hw h
  unfold ruleCovers
  rw [hsc]
  simp

/-- Witness for C3: a granted rule for `pods` with wildcard verbs does not
cover a requested rule for `pods/exec`. -/
theorem no_hierarchical_subresource_inference_witness :
    ruleCovers ⟨[""], ["pods"], ["*"], []⟩ ⟨[""], ["pods/exec"], ["create"], []⟩ = false :=
  no_hierarchical_subresource_inference ⟨[""], ["pods"], ["*"], []⟩
    ⟨[""], ["pods/exec"], ["create"], []⟩ "pods" "pods/exec"
    (by decide) (by decide) (by decide) (by decide)

/-- Claim C4: a granted rule with wildcard apiGroups, resources and verbs
and empty resourceNames covers every requested rule, so whenever it is
present in the granted set the coverage test returns true. -/
theorem wildcard_rule_covers_all (v : RBACValidator) (r : PolicyRule)
    (h : (⟨["*"], ["*"], ["*"], []⟩ : PolicyRule) ∈ v.operatorRules) :
    operatorCanGrant v r = true := by
  unfold operatorCanGrant
  rw [List.any_eq_true]
  exact ⟨_, h, ruleCovers_of_wildcard r⟩

/-- Witness for C4 at a concrete requested rule with non-trivial
attributes in every dimension. -/
theorem wildcard_rule_covers_all_witness :
    operatorCanGrant ⟨[⟨["*"], ["*"], ["*"], []⟩]⟩
      ⟨["apps", ""], ["deployments/scale", "pods"], ["update", "get"], ["x"]⟩ = true :=
  wildcard_rule_covers_all ⟨[⟨["*"], ["*"], ["*"], []⟩]⟩
    ⟨["apps", ""], ["deployments/scale", "pods"], ["update", "get"], ["x"]⟩ (by decide)

/-- Claim C5: aggregate validation returns exactly one error per failing
grant request, in input order (it equals `filterMap` of single-role
validation); over `[A(fails), B(passes), C(fails)]` it returns A's error
then C's, and over an all-passing input it returns the empty list. -/
theorem validateAllRoles_one_error_per_failure_in_order (v : RBACValidator)
    (A B C : Role) (eA eC : String) (passing : List Role)
    (hA : ValidateRoleCreation v A = some eA)
    (hB : ValidateRoleCreation v B = none)
    (hC : ValidateRoleCreation v C = some eC)
    (hpass : ∀ ro ∈ passing, ValidateRoleCreation v ro = none) :
    (∀ roles : List Role,
      ValidateAllRoles v roles = roles.filterMap fun ro => ValidateRoleCreation v ro) ∧
    ValidateAllRoles v [A, B, C] = [eA, eC] ∧
    ValidateAllRoles v passing = [] := by
  refine ⟨validateAllRoles_eq_filterMap v, ?_, ?_⟩
  · rw [validateAllRoles_eq_filterMap]
    simp [List.filterMap_cons, hA, hB, hC]
  · rw [validateAllRoles_eq_filterMap]
    simp only [List.filterMap_eq_nil_iff]
    exact hpass

/-- Witness for C5: against an empty granted set, role `A` (one rule)
fails, role `B` (no rules) passes, role `C` (one rule) fails, and the
aggregate output is exactly A's error followed by C's. -/
theorem validateAllRoles_one_error_per_failure_in_order_witness :
    ValidateAllRoles ⟨[]⟩
      [⟨"A", [⟨[], [], [], []⟩]⟩, ⟨"B", []⟩, ⟨"C", [⟨[], [], [], []⟩]⟩] =
      [roleCreationError "A" ⟨[], [], [], []⟩, roleCreationError "C" ⟨[], [], [], []⟩] :=
  (validateAllRoles_one_error_per_failure_in_order ⟨[]⟩
    ⟨"A", [⟨[], [], [], []⟩]⟩ ⟨"B", []⟩ ⟨"C", [⟨[], [], [], []⟩]⟩
    (roleCreationError "A" ⟨[], [], [], []⟩) (roleCreationError "C" ⟨[], [], [], []⟩)
    [] rfl rfl rfl (by simp)).2.1

/-- Claim C6: single-role validation succeeds iff every rule of the role
passes the coverage test; otherwise it returns exactly the error naming
the role and rendering the first uncovered rule in input order (the
`find?` of the uncovered predicate), never aggregating later ones. -/
theorem validateRoleCreation_first_uncovered (v : RBACValidator) (role : Role) :
    (ValidateRoleCreation v role = none ↔
      ∀ r ∈ role.rules, operatorCanGrant v r = true) ∧
    ValidateRoleCreation v role =
      (role.rules.find? fun r => ! operatorCanGrant v r).map
        fun r => roleCreationError role.name r :=
  ⟨validateRoleCreation_none_iff v role, validateRulesLoop_eq_find v role.name role.rules⟩

/-- Claim C7: missing-permission extraction returns exactly the sub-list
of the role's rules failing the coverage test, verbatim and in order (it
equals `filter`), and two attribute-identical uncovered rules both appear
in the output. -/
theorem getMissingPermissions_exact_filter (v : RBACValidator) (role : Role)
    (r : PolicyRule) (n : String) (hr : operatorCanGrant v r = false) :
    GetMissingPermissions v role = role.rules.filter (fun q => ! operatorCanGrant v q) ∧
    GetMissingPermissions v ⟨n, [r, r]⟩ = [r, r] := by
  refine ⟨getMissingLoop_eq_filter v role.rules, ?_⟩
  show getMissingLoop v [r, r] = [r, r]
  rw [getMissingLoop_eq_filter]
  simp [hr]

/-- Witness for C7: against an empty granted set, a role with the same
uncovered rule twice yields that rule twice. -/
theorem getMissingPermissions_exact_filter_witness :
    GetMissingPermissions ⟨[]⟩ ⟨"dup", [⟨[], [], [], []⟩, ⟨[], [], [], []⟩]⟩ =
      [⟨[], [], [], []⟩, ⟨[], [], [], []⟩] :=
  (getMissingPermissions_exact_filter ⟨[]⟩ ⟨"x", []⟩ ⟨[], [], [], []⟩ "dup" rfl).2

/-- Claim C8: suggestion rendering produces exactly one string per input
rule, in input order, equal to the spec-side rendering: fields joined by
semicolons in original order, the groups field rendered as the
two-character empty-quote token exactly when the apiGroups list is empty
or the singleton core group, and a resourceNames clause appended iff the
rule's resourceNames is non-empty. -/
theorem suggestKubebuilderAnnotation_renders_spec (rules : List PolicyRule) :
    SuggestKubebuilderAnnotation rules = rules.map specRenderSuggestion := by
  have h : suggestForRule = specRenderSuggestion := funext suggestForRule_eq_spec
  rw [ SuggestKubebuilderAnnotation, h]

/-- Claim C9: construction from any granted list (including the empty one
modelling Go nil) just stores it and cannot fail; against the empty
granted set the coverage test returns false for a non-trivial rule, and a
role containing such a rule fails validation — reported behavior, not a
crash. -/
theorem empty_granted_set_fails (rules : List PolicyRule) (r : PolicyRule) (role : Role)
    (_hnt : ¬ (r.apiGroups = [] ∧ r.resources = [] ∧ r.verbs = []))
    (hmem : r ∈ role.rules) :
    (NewRBACValidator rules).operatorRules = rules ∧
    operatorCanGrant (NewRBACValidator []) r = false ∧
    ValidateRoleCreation (NewRBACValidator []) role ≠ none := by
  refine ⟨rfl, rfl, fun hnone => ?_⟩
  rw [validateRoleCreation_none_iff] at hnone
  have h := hnone r hmem
  simp [operatorCanGrant, NewRBACValidator] at h

/-- Witness for C9 at a concrete non-trivial rule and a role containing
it. -/
theorem empty_granted_set_fails_witness :
    ValidateRoleCreation (NewRBACValidator []) ⟨"w", [⟨[""], ["pods"], ["get"], []⟩]⟩ ≠ none :=
  (empty_granted_set_fails [] ⟨[""], ["pods"], ["get"], []⟩
    ⟨"w", [⟨[""], ["pods"], ["get"], []⟩]⟩ (by decide) (by decide)).2.2

/-- Counterexample to claim C10 as stated: the requested rule with empty
apiGroups, resources and verbs but resourceNames `locked` is not covered
by the granted rule whose resourceNames is `other`, and the role holding
it fails validation although the granted set contains one rule. -/
theorem trivial_rule_with_resourceNames_not_covered :
    ruleCovers ⟨[], [], [], ["other"]⟩ ⟨[], [], [], ["locked"]⟩ = false ∧
    operatorCanGrant ⟨[⟨[], [], [], ["other"]⟩]⟩ ⟨[], [], [], ["locked"]⟩ = false ∧
    ValidateRoleCreation ⟨[⟨[], [], [], ["other"]⟩]⟩
      ⟨"t", [⟨[], [], [], ["locked"]⟩]⟩ ≠ none := by
  decide

/-- Claim C10 as amended: a trivial requested rule with all four attribute
lists empty is covered by every granted rule; a grant request with at
least one rule, all of them trivial in this sense, passes validation
whenever the granted set is non-empty and fails whenever it is empty. -/
theorem trivial_rule_covered_amended (g r : PolicyRule) (v : RBACValidator) (role : Role)
    (h1 : r.apiGroups = []) (h2 : r.resources = []) (h3 : r.verbs = [])
    (h4 : r.resourceNames = [])
    (hv : v.operatorRules ≠ [])
    (hrole : ∀ q ∈ role.rules,
      q.apiGroups = [] ∧ q.resources = [] ∧ q.verbs = [] ∧ q.resourceNames = [])
    (hne : role.rules ≠ []) :
    ruleCovers g r = true ∧
    ValidateRoleCreation v role = none ∧
    ValidateRoleCreation (NewRBACValidator []) role ≠ none := by
  refine ⟨ruleCovers_of_trivial g r h1 h2 h3 h4, ?_, fun hnone => ?_⟩
  · rw [validateRoleCreation_none_iff]
    intro q hq
    obtain ⟨g0, hg0⟩ := List.exists_mem_of_ne_nil v.operatorRules hv
    obtain ⟨q1, q2, q3, q4⟩ := hrole q hq
    unfold operatorCanGrant
    rw [List.any_eq_true]
    exact ⟨g0, hg0, ruleCovers_of_trivial g0 q q1 q2 q3 q4⟩
  · rw [validateRoleCreation_none_iff] at hnone
    obtain ⟨q, hq⟩ := List.exists_mem_of_ne_nil role.rules hne
    have h := hnone q hq
    simp [operatorCanGrant, NewRBACValidator] at h

/-- Witness for the amended C10 at concrete inputs: a fully trivial rule
is covered by an arbitrary granted rule, the role holding it passes
against a non-empty granted set, and fails against the empty one. -/
theorem trivial_rule_covered_amended_witness :
    ruleCovers ⟨["a"], ["b"], ["c"], ["d"]⟩ ⟨[], [], [], []⟩ = true ∧
    ValidateRoleCreation ⟨[⟨["a"], ["b"], ["c"], ["d"]⟩]⟩ ⟨"t", [⟨[], [], [], []⟩]⟩ = none ∧
    ValidateRoleCreation (NewRBACValidator []) ⟨"t", [⟨[], [], [], []⟩]⟩ ≠ none :=
  trivial_rule_covered_amended ⟨["a"], ["b"], ["c"], ["d"]⟩ ⟨[], [], [], []⟩
    ⟨[⟨["a"], ["b"], ["c"], ["d"]⟩]⟩ ⟨"t", [⟨[], [], [], []⟩]⟩
    rfl rfl rfl rfl (by decide) (by decide) (by decide)

end CertManagerRBAC
